import Mathlib

/-!
Verification of the quiz application (a single-session client-only quiz:
setup → quiz → results).  The TypeScript sources are shallowly embedded:
pure data transforms (`stats`, `getPerformanceMessage`, `reviewQuestions`,
`shuffleArray`, the range selection of `startQuiz`, the `handleStart`
validation) become Lean functions, and the stateful `QuizScreen` component
becomes an explicit state machine with a step function over user/timer
events.  JavaScript numbers are modelled as `Int` where subtraction or
user-supplied values matter and as `Nat` for indices and counts;
`Math.round` on non-negative rationals is Mathlib's `round` on `ℚ`.
-/

namespace Quiz

/-- The four option keys `A | B | C | D` (`types.ts`). -/
inductive Opt where
  | A
  | B
  | C
  | D
deriving DecidableEq, Repr

/-- `Question` record (`types.ts`): `id`, `question` text, `options` (a fixed
4-key mapping, modelled as four string fields), `correctAnswer`. -/
structure Question where
  id : Nat
  question : String
  optionA : String
  optionB : String
  optionC : String
  optionD : String
  correctAnswer : Opt
deriving DecidableEq, Repr

/-- `UserAnswer` record (`types.ts`).  `selectedOption` is typed
`A|B|C|D|null` in the source, but every record the application actually
creates (`handleAnswer`) carries a non-null option, so it is modelled as
`Opt`.  `timestamp` is `Date.now()`, modelled as a `Nat` tick supplied by the
state machine. -/
structure UserAnswer where
  questionId : Nat
  selectedOption : Opt
  isCorrect : Bool
  timestamp : Nat
deriving DecidableEq, Repr

/-- The `answers` value `Record<number, UserAnswer>`: an association list from
question id to `UserAnswer`.  A JavaScript object has distinct keys, so the
representation invariant is that the keys (`map Prod.fst`) are `Nodup`. -/
abbrev Answers := List (Nat × UserAnswer)

/-- `answers[id]`: look an id up in the answers mapping. -/
def lookupAnswer (answers : Answers) (id : Nat) : Option UserAnswer :=
  (answers.find? (fun p => p.1 == id)).map Prod.snd

/-- The `stats` record computed by the `ResultsScreen` `useMemo`.  All fields
are JavaScript numbers; they are modelled as `Int` so that the subtractions
read exactly as in the source. -/
structure Stats where
  total : Int
  answered : Int
  correct : Int
  incorrect : Int
  unanswered : Int
  percentage : Int
deriving DecidableEq, Repr

/-- `stats` from `ResultsScreen`:
`total = questions.length`, `answered = Object.keys(answers).length`,
`correct = Object.values(answers).filter(a => a.isCorrect).length`,
`incorrect = answered - correct`, `unanswered = total - answered`,
`percentage = total > 0 ? Math.round((correct / total) * 100) : 0`.
`Math.round` rounds half towards positive infinity, which on the
non-negative rationals arising here is Mathlib's `round` on `ℚ`. -/
def statsOf (questions : List Question) (answers : Answers) : Stats :=
  let total : Int := questions.length
  let answered : Int := answers.length
  let correct : Int := (answers.filter (fun p => p.2.isCorrect)).length
  { total := total
    answered := answered
    correct := correct
    incorrect := answered - correct
    unanswered := total - answered
    percentage := if 0 < total then round ((correct : ℚ) / (total : ℚ) * 100) else 0 }

/-- The `{ text, color, bg }` record returned by `getPerformanceMessage`. -/
structure PerformanceMessage where
  text : String
  color : String
  bg : String
deriving DecidableEq, Repr

/-- `getPerformanceMessage` from `ResultsScreen`: five tiers checked
top-down on `stats.percentage`. -/
def getPerformanceMessage (percentage : Int) : PerformanceMessage :=
  if percentage ≥ 90 then ⟨"Excellent!", "text-green-600", "bg-green-100"⟩
  else if percentage ≥ 75 then ⟨"Great Job!", "text-emerald-600", "bg-emerald-100"⟩
  else if percentage ≥ 60 then ⟨"Good Effort!", "text-blue-600", "bg-blue-100"⟩
  else if percentage ≥ 40 then ⟨"Keep Practicing!", "text-amber-600", "bg-amber-100"⟩
  else ⟨"Need More Practice", "text-red-600", "bg-red-100"⟩

/-- `reviewQuestions` from `ResultsScreen`: with the incorrect-only filter on,
keep the questions whose answer record exists and is not correct
(`answer && !answer.isCorrect` — an unanswered question is falsy and
excluded); with the filter off, all questions. -/
def reviewQuestions (showOnlyIncorrect : Bool) (questions : List Question)
    (answers : Answers) : List Question :=
  if showOnlyIncorrect then
    questions.filter (fun q =>
      match lookupAnswer answers q.id with
      | some a => !a.isCorrect
      | none => false)
  else questions

/-- C9: the performance band is determined by five ordered
inclusive-lower-bound tiers, evaluated top-down with first match winning:
percentage ≥ 90 ("Excellent!"), else ≥ 75 ("Great Job!"), else ≥ 60
("Good Effort!"), else ≥ 40 ("Keep Practicing!"), else the lowest tier
("Need More Practice"). -/
theorem getPerformanceMessage_bands (percentage : Int) :
    ((getPerformanceMessage percentage).text = "Excellent!" ↔ 90 ≤ percentage) ∧
    ((getPerformanceMessage percentage).text = "Great Job!" ↔
      75 ≤ percentage ∧ percentage < 90) ∧
    ((getPerformanceMessage percentage).text = "Good Effort!" ↔
      60 ≤ percentage ∧ percentage < 75) ∧
    ((getPerformanceMessage percentage).text = "Keep Practicing!" ↔
      40 ≤ percentage ∧ percentage < 60) ∧
    ((getPerformanceMessage percentage).text = "Need More Practice" ↔
      percentage < 40) := by
  unfold getPerformanceMessage
  split_ifs with h1 h2 h3 h4 <;> simp_all <;> omega

/-- C10: with the incorrect-only filter on, the review list is exactly the
selected questions having an answer record with `isCorrect = false`
(unanswered questions excluded), in selection order (a sublist of the
selection); with the filter off it is the whole selection. -/
theorem reviewQuestions_spec (questions : List Question) (answers : Answers) :
    reviewQuestions false questions answers = questions ∧
    (reviewQuestions true questions answers).Sublist questions ∧
    ∀ q, q ∈ reviewQuestions true questions answers ↔
      q ∈ questions ∧ ∃ a, lookupAnswer answers q.id = some a ∧
        a.isCorrect = false := by
  refine ⟨rfl, ?_, ?_⟩
  · simp only [reviewQuestions, if_pos]
    exact List.filter_sublist questions
  · intro q
    simp only [reviewQuestions, if_pos, List.mem_filter]
    rcases h : lookupAnswer answers q.id with _ | a <;> simp [h]

/-- C1: the scorer computes `answered` = the number of distinct question ids
in the answers mapping, `correct` = the number of records with
`isCorrect = true`, `incorrect = answered - correct`,
`unanswered = total - answered`, and `percentage = round(correct/total*100)`
when `total > 0` (denominator `total`, the selected-question count) and `0`
when `total = 0`. -/
theorem statsOf_spec (questions : List Question) (answers : Answers)
    (hkeys : (answers.map Prod.fst).Nodup) :
    (statsOf questions answers).total = questions.length ∧
    (statsOf questions answers).answered =
      ((answers.map Prod.fst).dedup).length ∧
    (statsOf questions answers).correct =
      (answers.filter (fun p => p.2.isCorrect)).length ∧
    (statsOf questions answers).incorrect =
      (statsOf questions answers).answered - (statsOf questions answers).correct ∧
    (statsOf questions answers).unanswered =
      (statsOf questions answers).total - (statsOf questions answers).answered ∧
    (0 < questions.length →
      (statsOf questions answers).percentage =
        round (((statsOf questions answers).correct : ℚ) /
          (questions.length : ℚ) * 100)) ∧
    (questions.length = 0 → (statsOf questions answers).percentage = 0) := by
  have hd : (answers.map Prod.fst).dedup = answers.map Prod.fst := hkeys.dedup
  refine ⟨rfl, ?_, rfl, rfl, rfl, ?_, ?_⟩
  · simp [statsOf, hd]
  · intro hpos
    have : (0 : Int) < questions.length := by exact_mod_cast hpos
    simp [statsOf, this]
  · intro h0
    simp [statsOf, h0]

/-- The five questions of the spec's example scenario (ids 1–5, correct
answer `A` everywhere; the option texts are irrelevant to scoring). -/
def exampleQuestions : List Question :=
  [⟨1, "q1", "a", "b", "c", "d", .A⟩, ⟨2, "q2", "a", "b", "c", "d", .A⟩,
   ⟨3, "q3", "a", "b", "c", "d", .A⟩, ⟨4, "q4", "a", "b", "c", "d", .A⟩,
   ⟨5, "q5", "a", "b", "c", "d", .A⟩]

/-- The example answers: Q1 correct, Q2 incorrect, Q3 skipped, Q4 only
flagged, Q5 correct. -/
def exampleAnswers : Answers :=
  [(1, ⟨1, .A, true, 0⟩), (2, ⟨2, .B, false, 1⟩), (5, ⟨5, .A, true, 2⟩)]

/-- Witness for C1 at the spec's concrete scenario: total 5, answered 3,
correct 2, incorrect 1, unanswered 2, percentage 40. -/
theorem statsOf_spec_witness :
    (exampleAnswers.map Prod.fst).Nodup ∧
    (statsOf exampleQuestions exampleAnswers).answered =
      ((exampleAnswers.map Prod.fst).dedup).length ∧
    statsOf exampleQuestions exampleAnswers = ⟨5, 3, 2, 1, 2, 40⟩ := by
  have h : (exampleAnswers.map Prod.fst).Nodup := by decide
  refine ⟨h, (statsOf_spec exampleQuestions exampleAnswers h).2.1, ?_⟩
  simp [statsOf, exampleQuestions, exampleAnswers, List.filter]
  have h40 : ((2 : ℚ) / 5 * 100) = ((40 : ℤ) : ℚ) := by norm_num
  rw [h40, round_intCast]

/-- `'practice' | 'exam'` (`types.ts`). -/
inductive QuizMode where
  | practice
  | exam
deriving DecidableEq, Repr

/-- `QuizConfig` (`types.ts`): mode, shuffle flag and the 1-based inclusive
question range.  The range endpoints are JavaScript numbers, modelled as
`Int`. -/
structure QuizConfig where
  mode : QuizMode
  shuffle : Bool
  startQuestion : Int
  endQuestion : Int
deriving DecidableEq, Repr

/-- One destructuring swap `[a[i], a[j]] = [a[j], a[i]]` of the Fisher–Yates
loop in `shuffleArray` (`App.tsx`).  The loop only ever uses in-bounds
indices; out of bounds the swap is the identity. -/
def swapList {α : Type} (l : List α) (i j : Nat) : List α :=
  match l[i]?, l[j]? with
  | some x, some y => (l.set i y).set j x
  | _, _ => l

/-- The loop of `shuffleArray`: `for (let i = length - 1; i > 0; i--)` with
`j = Math.floor(Math.random() * (i + 1))`; the random draw at index `i` is
supplied by `rnd i`. -/
def shuffleLoop {α : Type} (rnd : Nat → Nat) : List α → Nat → List α
  | l, 0 => l
  | l, i + 1 => shuffleLoop rnd (swapList l (i + 1) (rnd (i + 1))) i

/-- `shuffleArray` (`App.tsx`): copy the input (`[...array]` — the input
value is untouched, which is inherent to the embedding) and run the
Fisher–Yates loop from the last index down to `1`.  In the source
`rnd i ∈ [0, i]` always; the permutation property holds for any draws. -/
def shuffleArray {α : Type} (rnd : Nat → Nat) (array : List α) : List α :=
  shuffleLoop rnd array (array.length - 1)

/-- Setting index `i` of `l` to `b` removes one occurrence of `l[i]` and adds
one occurrence of `b`, for every counted element. -/
theorem count_set_aux {α : Type} [DecidableEq α] (l : List α) (i : Nat)
    (b x a : α) (hx : l[i]? = some x) :
    (l.set i b).count a + (if x == a then 1 else 0)
      = l.count a + (if b == a then 1 else 0) := by
  obtain ⟨h, rfl⟩ := List.getElem?_eq_some_iff.mp hx
  conv_lhs => rw [List.set_eq_take_cons_drop b h]
  conv_rhs => rw [← List.take_append_drop i l, ← List.getElem_cons_drop l i h]
  simp only [List.count_append, List.count_cons]
  omega

/-- A destructuring swap permutes the list. -/
theorem swapList_perm {α : Type} (l : List α) (i j : Nat) :
    (swapList l i j).Perm l := by
  classical
  rcases hx : l[i]? with _ | x
  · simp [swapList, hx]
  rcases hy : l[j]? with _ | y
  · simp [swapList, hx, hy]
  have hred : swapList l i j = (l.set i y).set j x := by
    simp [swapList, hx, hy]
  rw [hred, List.perm_iff_count]
  intro a
  rcases eq_or_ne i j with rfl | hne
  · have hxy : x = y := by rw [hx] at hy; exact Option.some_injective _ hy
    obtain ⟨hi, -⟩ := List.getElem?_eq_some_iff.mp hx
    have h1 := count_set_aux (l.set i y) i x y a
      (by simp [List.getElem?_set_self, by simpa using hi])
    have h2 := count_set_aux l i y x a hx
    subst hxy
    omega
  · have hy' : (l.set i y)[j]? = some y := by
      rw [List.getElem?_set_ne hne, hy]
    have h1 := count_set_aux (l.set i y) j x y a hy'
    have h2 := count_set_aux l i y x a hx
    split_ifs at h1 h2 <;> omega

/-- The whole loop permutes the list. -/
theorem shuffleLoop_perm {α : Type} (rnd : Nat → Nat) :
    ∀ (n : Nat) (l : List α), (shuffleLoop rnd l n).Perm l
  | 0, _ => List.Perm.refl _
  | n + 1, l =>
    (shuffleLoop_perm rnd n (swapList l (n + 1) (rnd (n + 1)))).trans
      (swapList_perm l (n + 1) (rnd (n + 1)))

/-- C2: for every input list and every choice of random draws, the
Fisher–Yates shuffle is a permutation of the input: the multiset of question
ids of the shuffled list equals the multiset of ids of the input (and the
input, a list value, is unchanged by construction). -/
theorem shuffleArray_perm (rnd : Nat → Nat) (l : List Question) :
    (shuffleArray rnd l).Perm l ∧
    ((shuffleArray rnd l).map Question.id : Multiset Nat) =
      (l.map Question.id : Multiset Nat) := by
  have h : (shuffleArray rnd l).Perm l := shuffleLoop_perm rnd (l.length - 1) l
  exact ⟨h, Multiset.coe_eq_coe.mpr (h.map Question.id)⟩

/-- The range-selection step of `startQuiz` (`App.tsx`):
`startIndex = Math.max(0, config.startQuestion - 1)`,
`endIndex = Math.min(questions.length, config.endQuestion)`,
`filtered = questions.slice(startIndex, endIndex)`.  For the non-negative
indices arising here, `slice(start, end)` is drop-then-take. -/
def selectRange (questions : List Question) (startQuestion endQuestion : Int) :
    List Question :=
  let startIndex : Int := max 0 (startQuestion - 1)
  let endIndex : Int := min (questions.length : Int) endQuestion
  (questions.drop startIndex.toNat).take (endIndex - startIndex).toNat

/-- `startQuiz` (`App.tsx`): select the configured range from the full
question list, then shuffle it when requested.  The full list is not
mutated (list values are immutable in the embedding, matching `slice` and
`[...array]` in the source). -/
def startQuiz (rnd : Nat → Nat) (questions : List Question)
    (config : QuizConfig) : List Question :=
  let filtered := selectRange questions config.startQuestion config.endQuestion
  if config.shuffle then shuffleArray rnd filtered else filtered

/-- C3: for `1 ≤ rangeStart ≤ rangeEnd ≤ questions.length`, the selected set
has length `rangeEnd - rangeStart + 1`, and before optional shuffling it
consists exactly of the questions at 1-based positions
`rangeStart..rangeEnd` in original order. -/
theorem startQuiz_range (rnd : Nat → Nat) (questions : List Question)
    (config : QuizConfig) (h1 : 1 ≤ config.startQuestion)
    (h2 : config.startQuestion ≤ config.endQuestion)
    (h3 : config.endQuestion ≤ (questions.length : Int)) :
    ((startQuiz rnd questions config).length : Int)
      = config.endQuestion - config.startQuestion + 1 ∧
    ((selectRange questions config.startQuestion config.endQuestion).length : Int)
      = config.endQuestion - config.startQuestion + 1 ∧
    ∀ k : Nat, (k : Int) < config.endQuestion - config.startQuestion + 1 →
      (selectRange questions config.startQuestion config.endQuestion)[k]?
        = questions[(config.startQuestion - 1).toNat + k]? := by
  have hlen : ((selectRange questions config.startQuestion
      config.endQuestion).length : Int)
      = config.endQuestion - config.startQuestion + 1 := by
    simp only [selectRange, List.length_take, List.length_drop]
    omega
  refine ⟨?_, hlen, ?_⟩
  · have : (startQuiz rnd questions config).length
        = (selectRange questions config.startQuestion config.endQuestion).length := by
      unfold startQuiz
      split_ifs with hs
      · exact (shuffleArray_perm rnd _).1.length_eq
      · rfl
    rw [this, hlen]
  · intro k hk
    have hk' : k < (min ((questions.length : Int))
        config.endQuestion - max 0 (config.startQuestion - 1)).toNat := by omega
    simp only [selectRange]
    rw [List.getElem?_take, if_pos hk', List.getElem?_drop]
    congr 1
    omega

/-- Witness for C3: from 5 questions, the range 2..4 selects the three
questions with ids 2, 3, 4. -/
theorem startQuiz_range_witness :
    ((1 : Int) ≤ 2 ∧ (2 : Int) ≤ 4 ∧ (4 : Int) ≤ (exampleQuestions.length : Int)) ∧
    ((startQuiz (fun _ => 0) exampleQuestions ⟨.practice, false, 2, 4⟩).length : Int)
      = 4 - 2 + 1 ∧
    (selectRange exampleQuestions 2 4)[0]? = exampleQuestions[1]? := by
  refine ⟨by norm_num [exampleQuestions], ?_, ?_⟩
  · exact (startQuiz_range (fun _ => 0) exampleQuestions ⟨.practice, false, 2, 4⟩
      (by norm_num) (by norm_num) (by norm_num [exampleQuestions])).1
  · exact (startQuiz_range (fun _ => 0) exampleQuestions ⟨.practice, false, 2, 4⟩
      (by norm_num) (by norm_num) (by norm_num [exampleQuestions])).2.2 0 (by norm_num)

/-- `handleStart` from `QuizSetup` (`App.tsx`): validate the chosen range
against `totalQuestions`; on the first failed check set the corresponding
error message and return without starting; otherwise clear the error and
call `onStart` with the configuration.  Modelled as `Except`:
`.error msg` means the inline error is set and `onStart` is not called
(the flow stays on setup); `.ok config` means `onStart config` was called. -/
def handleStart (totalQuestions : Int) (mode : QuizMode) (shuffle : Bool)
    (startQuestion endQuestion : Int) : Except String QuizConfig :=
  if startQuestion < 1 ∨ startQuestion > totalQuestions then
    .error s!"Start question must be between 1 and {totalQuestions}"
  else if endQuestion < 1 ∨ endQuestion > totalQuestions then
    .error s!"End question must be between 1 and {totalQuestions}"
  else if startQuestion > endQuestion then
    .error "Start question must be less than or equal to end question"
  else if endQuestion - startQuestion + 1 < 5 then
    .error "Please select at least 5 questions"
  else
    .ok ⟨mode, shuffle, startQuestion, endQuestion⟩

/-- C4: setup validation starts the quiz (calls `onStart` with exactly the
chosen mode, shuffle and range) precisely when `1 ≤ rangeStart`,
`rangeEnd ≤ totalQuestions`, `rangeStart ≤ rangeEnd` and the selected count
is at least 5; any violation yields an inline error instead.  On the spec's
example `totalQuestions = 10, rangeStart = 6, rangeEnd = 4` the message is
the start-must-be-at-most-end one. -/
theorem handleStart_spec (totalQuestions : Int) (mode : QuizMode)
    (shuffle : Bool) (startQuestion endQuestion : Int) :
    (handleStart totalQuestions mode shuffle startQuestion endQuestion).toOption
      = (if 1 ≤ startQuestion ∧ endQuestion ≤ totalQuestions ∧
            startQuestion ≤ endQuestion ∧ 5 ≤ endQuestion - startQuestion + 1
         then some ⟨mode, shuffle, startQuestion, endQuestion⟩ else none) ∧
    (1 ≤ startQuestion → startQuestion ≤ totalQuestions →
      1 ≤ endQuestion → endQuestion ≤ totalQuestions →
      endQuestion < startQuestion →
      handleStart totalQuestions mode shuffle startQuestion endQuestion
        = .error "Start question must be less than or equal to end question") := by
  constructor
  · unfold handleStart
    split_ifs <;> simp only [Except.toOption] <;> first | rfl | (exfalso; omega)
  · intro ha hb hc hd he
    unfold handleStart
    split_ifs <;> first | rfl | omega

/-- Witness for C4: the spec's example `totalQuestions = 10, start = 6,
end = 4` produces the start-must-be-at-most-end error and does not start;
the valid configuration `1..10` starts with exactly the chosen values. -/
theorem handleStart_spec_witness :
    handleStart 10 .practice false 6 4
      = .error "Start question must be less than or equal to end question" ∧
    (handleStart 10 .practice false 6 4).toOption = none ∧
    (handleStart 10 .exam true 1 10).toOption
      = some ⟨.exam, true, 1, 10⟩ := by
  refine ⟨(handleStart_spec 10 .practice false 6 4).2 (by norm_num)
    (by norm_num) (by norm_num) (by norm_num) (by norm_num), ?_, ?_⟩
  · have h := (handleStart_spec 10 .practice false 6 4).1
    simpa using h
  · have h := (handleStart_spec 10 .exam true 1 10).1
    simpa using h

/-- `{...prev, [id]: record}` on the answers record: replace the value when
the key already exists, otherwise add the new key. -/
def insertAnswer (answers : Answers) (id : Nat) (a : UserAnswer) : Answers :=
  match answers with
  | [] => [(id, a)]
  | p :: rest =>
    if p.1 = id then (id, a) :: rest else p :: insertAnswer rest id a

/-- A pending `setTimeout` handle: its identifier together with the
`currentIndex` value captured by the callback's closure when `handleAnswer`
created it (`if (currentIndex < totalQuestions - 1) setCurrentIndex(...)`
reads the captured value). -/
structure Timer where
  id : Nat
  capturedIndex : Nat
deriving DecidableEq, Repr

/-- The state of one mounted `QuizScreen` plus its environment: the React
state (`currentIndex`, `answers`, `showConfirmDialog`, `flaggedQuestions`,
`autoAdvanceTimer` — the last-created handle, possibly already cleared or
fired), the set of scheduled and not yet cleared/fired timeouts, the
`quizAnswers` key of `localStorage` (a missing key reads as the empty
mapping), whether `onFinish` has been signalled, a fresh-timeout-id counter
and a tick counter for `Date.now()`. -/
structure QuizScreenState where
  currentIndex : Nat
  answers : Answers
  showConfirmDialog : Bool
  flaggedQuestions : List Nat
  autoAdvanceTimer : Option Timer
  activeTimers : List Timer
  stored : Answers
  finished : Bool
  nextTimerId : Nat
  now : Nat
deriving DecidableEq, Repr

/-- The user/timer events a mounted `QuizScreen` can receive.  `jump` is the
question-navigator dot strip (one dot per question), `finishClick` the
Finish/Finish-Anyway button, `confirmFinish` the dialog's "Finish Now",
`closeDialog` its "Continue Quiz" (or dismissing it), `timerFire` the expiry
of a scheduled auto-advance, `unmount` the component being unmounted
(restart or navigation away). -/
inductive Event where
  | answer (o : Opt)
  | previous
  | skip
  | jump (idx : Nat)
  | toggleFlag
  | finishClick
  | confirmFinish
  | closeDialog
  | timerFire (t : Timer)
  | unmount
deriving DecidableEq, Repr

/-- `clearTimeout` on the held handle: removes that timeout from the
scheduled set; clearing a fired or already-cleared handle is a no-op. -/
def clearHeld (held : Option Timer) (scheduled : List Timer) : List Timer :=
  match held with
  | none => scheduled
  | some t => scheduled.filter (fun u => u.id != t.id)

/-- Initial state of a freshly mounted `QuizScreen`: index 0, no answers, no
dialog, no flags, no timers, nothing stored, not finished. -/
def initState : QuizScreenState :=
  ⟨0, [], false, [], none, [], [], false, 0, 0⟩

/-- One event step of `QuizScreen` (`QuizScreen.tsx`).  Each case mirrors the
corresponding handler together with the React effects it triggers before the
next event: the `[answers]` effect writes `answers` through to storage, and
the `[autoAdvanceTimer, currentIndex]` effect's cleanup clears the
previously held timeout whenever either dependency changed.

* `answer o` — `handleAnswer` via an option button; the button is disabled
  when `mode === 'practice' && isAnswered`.  Records the answer (overwriting
  a previous record for the same id), writes through to storage, and
  schedules a fresh auto-advance timeout whose closure captures the current
  index; the effect cleanup clears the previously held timeout.
* `previous`/`skip` — guarded index moves; on a change the effect cleanup
  clears the held timeout.
* `jump idx` — navigator dot (only indices `< questions.length` exist as
  dots): explicitly clears the held timeout, then sets the index.
* `toggleFlag` — toggles the current question id in the flag set.
* `finishClick` — `handleFinishClick`: clears the held timeout, stores the
  answers, then either finishes (all answered) or opens the dialog.
* `confirmFinish` — the dialog's "Finish Now" calls `onFinish`.
* `closeDialog` — closes the dialog.
* `timerFire t` — a scheduled timeout expires: it leaves the scheduled set
  and, if the captured index was not the last, advances the index (the
  functional update `prev => prev + 1`), upon which the effect cleanup
  clears the held handle.
* `unmount` — effect cleanups: store the answers if non-empty, clear the
  held timeout. -/
def step (mode : QuizMode) (questions : List Question)
    (s : QuizScreenState) : Event → QuizScreenState
  | .answer o =>
    match questions[s.currentIndex]? with
    | none => s
    | some q =>
      if mode = .practice ∧ (lookupAnswer s.answers q.id).isSome then s
      else
        let record : UserAnswer := ⟨q.id, o, decide (o = q.correctAnswer), s.now⟩
        let answers' := insertAnswer s.answers q.id record
        let t : Timer := ⟨s.nextTimerId, s.currentIndex⟩
        { s with
          answers := answers'
          stored := answers'
          activeTimers := clearHeld s.autoAdvanceTimer s.activeTimers ++ [t]
          autoAdvanceTimer := some t
          nextTimerId := s.nextTimerId + 1
          now := s.now + 1 }
  | .previous =>
    if 0 < s.currentIndex then
      { s with currentIndex := s.currentIndex - 1
               activeTimers := clearHeld s.autoAdvanceTimer s.activeTimers }
    else s
  | .skip =>
    if s.currentIndex < questions.length - 1 then
      { s with currentIndex := s.currentIndex + 1
               activeTimers := clearHeld s.autoAdvanceTimer s.activeTimers }
    else s
  | .jump idx =>
    if idx < questions.length then
      { s with currentIndex := idx
               activeTimers := clearHeld s.autoAdvanceTimer s.activeTimers }
    else s
  | .toggleFlag =>
    match questions[s.currentIndex]? with
    | none => s
    | some q =>
      if q.id ∈ s.flaggedQuestions then
        { s with flaggedQuestions := s.flaggedQuestions.filter (fun i => i != q.id) }
      else
        { s with flaggedQuestions := q.id :: s.flaggedQuestions }
  | .finishClick =>
    let s1 := { s with activeTimers := clearHeld s.autoAdvanceTimer s.activeTimers
                       stored := s.answers }
    if s.answers.length = questions.length then { s1 with finished := true }
    else { s1 with showConfirmDialog := true }
  | .confirmFinish =>
    if s.showConfirmDialog then { s with finished := true } else s
  | .closeDialog => { s with showConfirmDialog := false }
  | .timerFire t =>
    if t ∈ s.activeTimers then
      let s1 := { s with activeTimers := s.activeTimers.filter (fun u => u.id != t.id) }
      if t.capturedIndex < questions.length - 1 then
        { s1 with currentIndex := s1.currentIndex + 1
                  activeTimers := clearHeld s1.autoAdvanceTimer s1.activeTimers }
      else s1
    else s
  | .unmount =>
    { s with activeTimers := clearHeld s.autoAdvanceTimer s.activeTimers
             stored := if s.answers.isEmpty then s.stored else s.answers }

/-- Run a mounted `QuizScreen` on a sequence of events. -/
def runQuiz (mode : QuizMode) (questions : List Question)
    (events : List Event) : QuizScreenState :=
  events.foldl (step mode questions) initState

/-- Looking up after an insert: the inserted key maps to the new record,
every other key is untouched. -/
theorem lookupAnswer_insert (ans : Answers) (id q : Nat) (a : UserAnswer) :
    lookupAnswer (insertAnswer ans id a) q
      = if q = id then some a else lookupAnswer ans q := by
  induction ans with
  | nil =>
    by_cases h : q = id
    · simp [insertAnswer, lookupAnswer, List.find?_cons, h]
    · have h' : ¬id = q := fun hh => h hh.symm
      simp [insertAnswer, lookupAnswer, List.find?_cons, h, h']
  | cons p rest ih =>
    by_cases hp : p.1 = id
    · by_cases h : q = id
      · simp_all [insertAnswer, lookupAnswer, List.find?_cons]
      · have h' : ¬id = q := fun hh => h hh.symm
        simp_all [insertAnswer, lookupAnswer, List.find?_cons]
    · simp only [insertAnswer, if_neg hp]
      by_cases hq : p.1 = q
      · have : ¬q = id := fun h => hp (hq.trans h)
        simp [lookupAnswer, List.find?_cons, hq, this]
      · simpa [lookupAnswer, List.find?_cons, hq] using ih

/-- A lookup succeeds exactly when the key occurs in the mapping. -/
theorem lookupAnswer_isSome (ans : Answers) (q : Nat) :
    (lookupAnswer ans q).isSome = true ↔ q ∈ ans.map Prod.fst := by
  induction ans with
  | nil => simp [lookupAnswer]
  | cons p rest ih =>
    by_cases hq : p.1 = q
    · simp [lookupAnswer, List.find?_cons, hq]
    · have hq' : ¬q = p.1 := fun hh => hq hh.symm
      simp_all [lookupAnswer, List.find?_cons]

/-- The keys after an insert: unchanged when the key was present, the key
appended otherwise. -/
theorem insertAnswer_keys (ans : Answers) (id : Nat) (a : UserAnswer) :
    (insertAnswer ans id a).map Prod.fst
      = if id ∈ ans.map Prod.fst then ans.map Prod.fst
        else ans.map Prod.fst ++ [id] := by
  induction ans with
  | nil => simp [insertAnswer]
  | cons p rest ih =>
    by_cases hp : p.1 = id
    · subst hp
      simp [insertAnswer]
    · have hp' : ¬id = p.1 := fun hh => hp hh.symm
      by_cases hm : id ∈ rest.map Prod.fst <;>
        simp [insertAnswer, hp, ih, hp', hm]

/-- Inserting preserves distinctness of the keys. -/
theorem insertAnswer_keys_nodup (ans : Answers) (id : Nat) (a : UserAnswer)
    (h : (ans.map Prod.fst).Nodup) :
    ((insertAnswer ans id a).map Prod.fst).Nodup := by
  rw [insertAnswer_keys]
  split_ifs with hm
  · exact h
  · rw [List.nodup_append]
    refine ⟨h, by simp, fun x hx hx' => ?_⟩
    rw [List.mem_singleton] at hx'
    exact hm (hx' ▸ hx)

/-- Every entry after an insert either carries the inserted key or was
already present. -/
theorem insertAnswer_mem (ans : Answers) (id : Nat) (a : UserAnswer) :
    ∀ p ∈ insertAnswer ans id a, p.1 = id ∨ p ∈ ans := by
  induction ans with
  | nil => simp [insertAnswer]
  | cons hd rest ih =>
    intro p hp
    by_cases hh : hd.1 = id
    · simp only [insertAnswer, if_pos hh, List.mem_cons] at hp
      rcases hp with rfl | hp
      · exact .inl rfl
      · exact .inr (List.mem_cons_of_mem _ hp)
    · simp only [insertAnswer, if_neg hh, List.mem_cons] at hp
      rcases hp with rfl | hp
      · exact .inr (List.mem_cons_self _ _)
      · rcases ih p hp with h | h
        · exact .inl h
        · exact .inr (List.mem_cons_of_mem _ h)

/-- When every scheduled timeout is the held one, clearing the held handle
empties the scheduled set. -/
theorem clearHeld_of_held (held : Option Timer) (scheduled : List Timer)
    (h : ∀ t ∈ scheduled, held = some t) :
    clearHeld held scheduled = [] := by
  cases held with
  | none =>
    cases scheduled with
    | nil => rfl
    | cons t l => exact absurd (h t (List.mem_cons_self t l)) (by simp)
  | some t₀ =>
    simp only [clearHeld, List.filter_eq_nil_iff]
    intro u hu
    have := h u hu
    simp_all

/-- Firing a timer that is not scheduled is a complete no-op. -/
theorem step_timerFire_of_not_mem (mode : QuizMode) (questions : List Question)
    (s : QuizScreenState) (t : Timer) (h : t ∉ s.activeTimers) :
    step mode questions s (.timerFire t) = s := by
  simp [step, h]

/-- Answering never moves the current position (the move happens later, when
the scheduled timeout fires). -/
theorem step_answer_currentIndex (mode : QuizMode) (questions : List Question)
    (s : QuizScreenState) (o : Opt) :
    (step mode questions s (.answer o)).currentIndex = s.currentIndex := by
  unfold step
  rcases questions[s.currentIndex]? with _ | q
  · rfl
  · by_cases h : mode = .practice ∧ (lookupAnswer s.answers q.id).isSome <;>
      simp [h]

/-- Reachability invariant of a mounted `QuizScreen`: the position is in
bounds (or the question list is empty and the position is still 0); every
scheduled timeout is the currently held handle and captured the current
position (so at most one auto-advance is ever outstanding); and the answers
record has distinct keys, all of them ids of selected questions. -/
def Inv (questions : List Question) (s : QuizScreenState) : Prop :=
  (s.currentIndex < questions.length ∨
    (questions = [] ∧ s.currentIndex = 0)) ∧
  (∀ t ∈ s.activeTimers,
    s.autoAdvanceTimer = some t ∧ t.capturedIndex = s.currentIndex) ∧
  (s.answers.map Prod.fst).Nodup ∧
  (∀ p ∈ s.answers, p.1 ∈ questions.map Question.id)

/-- `clearTimeout` of the held handle on an empty scheduled set. -/
theorem clearHeld_nil (held : Option Timer) : clearHeld held [] = [] := by
  cases held <;> rfl

/-- Every event preserves the invariant. -/
theorem inv_step (mode : QuizMode) (questions : List Question)
    (s : QuizScreenState) (e : Event) (h : Inv questions s) :
    Inv questions (step mode questions s e) := by
  obtain ⟨hidx, htim, hnod, hsub⟩ := h
  have hheld : ∀ t ∈ s.activeTimers, s.autoAdvanceTimer = some t :=
    fun t ht => (htim t ht).1
  have hclear : clearHeld s.autoAdvanceTimer s.activeTimers = [] :=
    clearHeld_of_held _ _ hheld
  cases e with
  | answer o =>
    cases hq : questions[s.currentIndex]? with
    | none =>
      simp only [step, hq]
      exact ⟨hidx, htim, hnod, hsub⟩
    | some q =>
      by_cases hg : mode = .practice ∧ (lookupAnswer s.answers q.id).isSome
      · simp only [step, hq, if_pos hg]
        exact ⟨hidx, htim, hnod, hsub⟩
      · simp only [step, hq, if_neg hg]
        refine ⟨hidx, ?_, ?_, ?_⟩
        · intro t ht
          rw [hclear] at ht
          simp only [List.nil_append, List.mem_singleton] at ht
          subst ht
          exact ⟨rfl, rfl⟩
        · exact insertAnswer_keys_nodup _ _ _ hnod
        · intro p hp
          rcases insertAnswer_mem _ _ _ p hp with h1 | h1
          · rw [h1]
            exact List.mem_map_of_mem Question.id (List.getElem?_mem hq)
          · exact hsub p h1
  | previous =>
    by_cases hg : 0 < s.currentIndex
    · simp only [step, if_pos hg]
      refine ⟨?_, ?_, hnod, hsub⟩
      · rcases hidx with h | ⟨-, h2⟩
        · exact .inl (show s.currentIndex - 1 < questions.length by omega)
        · exact absurd hg (by omega)
      · intro t ht
        rw [hclear] at ht
        exact absurd ht (List.not_mem_nil t)
    · simp only [step, if_neg hg]
      exact ⟨hidx, htim, hnod, hsub⟩
  | skip =>
    by_cases hg : s.currentIndex < questions.length - 1
    · simp only [step, if_pos hg]
      refine ⟨.inl (show s.currentIndex + 1 < questions.length by omega),
        ?_, hnod, hsub⟩
      intro t ht
      rw [hclear] at ht
      exact absurd ht (List.not_mem_nil t)
    · simp only [step, if_neg hg]
      exact ⟨hidx, htim, hnod, hsub⟩
  | jump idx =>
    by_cases hg : idx < questions.length
    · simp only [step, if_pos hg]
      refine ⟨.inl hg, ?_, hnod, hsub⟩
      intro t ht
      rw [hclear] at ht
      exact absurd ht (List.not_mem_nil t)
    · simp only [step, if_neg hg]
      exact ⟨hidx, htim, hnod, hsub⟩
  | toggleFlag =>
    cases hq : questions[s.currentIndex]? with
    | none =>
      simp only [step, hq]
      exact ⟨hidx, htim, hnod, hsub⟩
    | some q =>
      by_cases hf : q.id ∈ s.flaggedQuestions
      · simp only [step, hq, if_pos hf]
        exact ⟨hidx, htim, hnod, hsub⟩
      · simp only [step, hq, if_neg hf]
        exact ⟨hidx, htim, hnod, hsub⟩
  | finishClick =>
    have hempty : ∀ t, t ∈ clearHeld s.autoAdvanceTimer s.activeTimers →
        (some t = some t ∧ t.capturedIndex = s.currentIndex) := by
      intro t ht
      rw [hclear] at ht
      exact absurd ht (List.not_mem_nil t)
    by_cases hg : s.answers.length = questions.length
    · simp only [step, if_pos hg]
      refine ⟨hidx, ?_, hnod, hsub⟩
      intro t ht
      rw [hclear] at ht
      exact absurd ht (List.not_mem_nil t)
    · simp only [step, if_neg hg]
      refine ⟨hidx, ?_, hnod, hsub⟩
      intro t ht
      rw [hclear] at ht
      exact absurd ht (List.not_mem_nil t)
  | confirmFinish =>
    by_cases hg : s.showConfirmDialog
    · simp only [step, if_pos hg]
      exact ⟨hidx, htim, hnod, hsub⟩
    · simp only [step, if_neg hg]
      exact ⟨hidx, htim, hnod, hsub⟩
  | closeDialog =>
    simp only [step]
    exact ⟨hidx, htim, hnod, hsub⟩
  | timerFire t =>
    by_cases hg : t ∈ s.activeTimers
    · have haat := (htim t hg).1
      have hcap := (htim t hg).2
      have hfilter : s.activeTimers.filter (fun u => u.id != t.id) = [] := by
        rw [List.filter_eq_nil_iff]
        intro u hu
        have hu' : u = t := by
          have h1 := (htim u hu).1
          rw [haat] at h1
          exact (Option.some_injective _ h1).symm
        simp [hu']
      by_cases hadv : t.capturedIndex < questions.length - 1
      · simp only [step, if_pos hg, if_pos hadv]
        refine ⟨?_, ?_, hnod, hsub⟩
        · rcases hidx with h | ⟨h1, h2⟩
          · exact .inl (show s.currentIndex + 1 < questions.length by omega)
          · exfalso
            rw [h1] at hadv
            simp at hadv
        · intro u hu
          rw [hfilter, clearHeld_nil] at hu
          exact absurd hu (List.not_mem_nil u)
      · simp only [step, if_pos hg, if_neg hadv]
        refine ⟨hidx, ?_, hnod, hsub⟩
        intro u hu
        rw [hfilter] at hu
        exact absurd hu (List.not_mem_nil u)
    · simp only [step, if_neg hg]
      exact ⟨hidx, htim, hnod, hsub⟩
  | unmount =>
    simp only [step]
    refine ⟨hidx, ?_, hnod, hsub⟩
    intro u hu
    rw [hclear] at hu
    exact absurd hu (List.not_mem_nil u)

/-- The invariant holds initially. -/
theorem inv_init (questions : List Question) : Inv questions initState := by
  refine ⟨?_, ?_, ?_, ?_⟩
  · cases questions with
    | nil => exact .inr ⟨rfl, rfl⟩
    | cons q l => exact .inl (by simp [initState])
  · intro t ht
    exact absurd ht (List.not_mem_nil t)
  · simp [initState]
  · intro p hp
    exact absurd hp (List.not_mem_nil p)

/-- The invariant is preserved along any event sequence. -/
theorem inv_foldl (mode : QuizMode) (questions : List Question) :
    ∀ (events : List Event) (s : QuizScreenState), Inv questions s →
      Inv questions (events.foldl (step mode questions) s)
  | [], _, h => h
  | e :: es, s, h =>
    inv_foldl mode questions es _ (inv_step mode questions s e h)

/-- Every reachable `QuizScreen` state satisfies the invariant. -/
theorem inv_run (mode : QuizMode) (questions : List Question)
    (events : List Event) : Inv questions (runQuiz mode questions events) :=
  inv_foldl mode questions events initState (inv_init questions)

/-- Only the `answer` event ever modifies the answers record. -/
theorem step_answers_of_ne (mode : QuizMode) (questions : List Question)
    (s : QuizScreenState) :
    ∀ e : Event, (∀ o, e ≠ .answer o) →
      (step mode questions s e).answers = s.answers
  | .answer o, h => absurd rfl (h o)
  | .previous, _ => by
    by_cases hg : 0 < s.currentIndex <;> simp [step, hg]
  | .skip, _ => by
    by_cases hg : s.currentIndex < questions.length - 1 <;> simp [step, hg]
  | .jump idx, _ => by
    by_cases hg : idx < questions.length <;> simp [step, hg]
  | .toggleFlag, _ => by
    cases hq : questions[s.currentIndex]? with
    | none => simp [step, hq]
    | some q => by_cases hf : q.id ∈ s.flaggedQuestions <;> simp [step, hq, hf]
  | .finishClick, _ => by
    by_cases hg : s.answers.length = questions.length <;> simp [step, hg]
  | .confirmFinish, _ => by
    by_cases hg : s.showConfirmDialog <;> simp [step, hg]
  | .closeDialog, _ => by simp [step]
  | .timerFire t, _ => by
    by_cases hg : t ∈ s.activeTimers
    · by_cases hadv : t.capturedIndex < questions.length - 1 <;>
        simp [step, hg, hadv]
    · simp [step, hg]
  | .unmount, _ => by simp [step]

/-- In practice mode one step never changes an existing answer record: the
only event that writes answers is `answer`, and its button is disabled on an
already-answered question. -/
theorem practice_step_preserves_answer (questions : List Question)
    (s : QuizScreenState) (e : Event) (q : Nat) (r : UserAnswer)
    (h : lookupAnswer s.answers q = some r) :
    lookupAnswer (step .practice questions s e).answers q = some r := by
  cases e with
  | answer o =>
    cases hq : questions[s.currentIndex]? with
    | none => simpa [step, hq] using h
    | some cq =>
      by_cases hcq : (lookupAnswer s.answers cq.id).isSome = true
      · simpa [step, hq, hcq] using h
      · have hne : ¬q = cq.id := by
          intro hqe
          subst hqe
          rw [h] at hcq
          exact hcq rfl
        simpa [step, hq, hcq, lookupAnswer_insert, hne] using h
  | previous =>
    rw [step_answers_of_ne .practice questions s .previous (by intro o; simp)]
    exact h
  | skip =>
    rw [step_answers_of_ne .practice questions s .skip (by intro o; simp)]
    exact h
  | jump idx =>
    rw [step_answers_of_ne .practice questions s (.jump idx) (by intro o; simp)]
    exact h
  | toggleFlag =>
    rw [step_answers_of_ne .practice questions s .toggleFlag (by intro o; simp)]
    exact h
  | finishClick =>
    rw [step_answers_of_ne .practice questions s .finishClick (by intro o; simp)]
    exact h
  | confirmFinish =>
    rw [step_answers_of_ne .practice questions s .confirmFinish (by intro o; simp)]
    exact h
  | closeDialog =>
    rw [step_answers_of_ne .practice questions s .closeDialog (by intro o; simp)]
    exact h
  | timerFire t =>
    rw [step_answers_of_ne .practice questions s (.timerFire t) (by intro o; simp)]
    exact h
  | unmount =>
    rw [step_answers_of_ne .practice questions s .unmount (by intro o; simp)]
    exact h

/-- Preservation of an existing practice-mode answer along any event list. -/
theorem practice_foldl_preserves (questions : List Question) :
    ∀ (events : List Event) (s : QuizScreenState) (q : Nat) (r : UserAnswer),
      lookupAnswer s.answers q = some r →
      lookupAnswer ((events.foldl (step .practice questions) s)).answers q
        = some r
  | [], _, _, _, h => h
  | e :: es, s, q, r, h =>
    practice_foldl_preserves questions es _ q r
      (practice_step_preserves_answer questions s e q r h)

/-- C5 fails as stated for exam mode: the option buttons are disabled only
when `mode === 'practice' && isAnswered`, so in exam mode a second click on
an answered question overwrites the record.  Concretely: in exam mode, after
answering question 1 with A its record holds A, and a subsequent click on B
(a later user action) leaves a record holding B. -/
theorem exam_overwrite_counterexample :
    (lookupAnswer (runQuiz .exam exampleQuestions [.answer .A]).answers 1).map
        (fun a => a.selectedOption) = some Opt.A ∧
    (lookupAnswer (runQuiz .exam exampleQuestions
        [.answer .A, .answer .B]).answers 1).map
        (fun a => a.selectedOption) = some Opt.B := by
  constructor <;> rfl

/-- C5 (amended): in practice mode each question is single-write — once a
question has an answer record, the disabled option buttons prevent any later
user action from overwriting it, so the record first stored is the one
present at finish.  In exam mode a question can be re-answered before
finishing. -/
theorem practice_single_write (questions : List Question)
    (events more : List Event) (q : Nat) (r : UserAnswer)
    (h : lookupAnswer (runQuiz .practice questions events).answers q = some r) :
    lookupAnswer (runQuiz .practice questions (events ++ more)).answers q
      = some r := by
  rw [runQuiz, List.foldl_append]
  exact practice_foldl_preserves questions more _ q r h

/-- Witness for C5 (amended): in practice mode, answering question 1 with A
and then clicking B leaves the original record. -/
theorem practice_single_write_witness :
    lookupAnswer (runQuiz .practice exampleQuestions [.answer .A]).answers 1
      = some ⟨1, .A, true, 0⟩ ∧
    lookupAnswer (runQuiz .practice exampleQuestions
        ([.answer .A] ++ [.answer .B])).answers 1 = some ⟨1, .A, true, 0⟩ := by
  have h : lookupAnswer
      (runQuiz .practice exampleQuestions [.answer .A]).answers 1
      = some ⟨1, .A, true, 0⟩ := rfl
  exact ⟨h, practice_single_write exampleQuestions [.answer .A] [.answer .B]
    1 _ h⟩

/-- With distinct question ids, the code's completeness test
`answeredCount === totalQuestions` holds exactly when every selected
question has an answer record. -/
theorem answers_complete_iff (questions : List Question) (ans : Answers)
    (hids : (questions.map Question.id).Nodup)
    (hnod : (ans.map Prod.fst).Nodup)
    (hsub : ∀ p ∈ ans, p.1 ∈ questions.map Question.id) :
    (ans.length = questions.length ↔
      ∀ q ∈ questions, (lookupAnswer ans q.id).isSome = true) := by
  have hkeys_sub : ans.map Prod.fst ⊆ questions.map Question.id := by
    intro k hk
    rw [List.mem_map] at hk
    obtain ⟨p, hp, rfl⟩ := hk
    exact hsub p hp
  have hsp : List.Subperm (ans.map Prod.fst) (questions.map Question.id) :=
    hnod.subperm hkeys_sub
  constructor
  · intro hlen q hq
    have hle : (questions.map Question.id).length ≤ (ans.map Prod.fst).length := by
      simp [hlen]
    have hperm := hsp.perm_of_length_le hle
    rw [lookupAnswer_isSome]
    exact hperm.symm.subset (List.mem_map_of_mem Question.id hq)
  · intro hall
    have hsp2 : List.Subperm (questions.map Question.id) (ans.map Prod.fst) := by
      refine hids.subperm ?_
      intro k hk
      rw [List.mem_map] at hk
      obtain ⟨q, hq, rfl⟩ := hk
      rw [← lookupAnswer_isSome]
      exact hall q hq
    have h1 := hsp.length_le
    have h2 := hsp2.length_le
    simp only [List.length_map] at h1 h2
    omega

/-- C6: for every reachable session state, a finish click first writes the
entire answers mapping through to the store and cancels any pending
auto-advance; then, if some selected question has no answer record, it does
not signal completion (`finished` is unchanged) but opens the confirmation
dialog, and completion follows only from the explicit confirm; if every
question is answered it signals completion immediately. -/
theorem finish_spec (mode : QuizMode) (questions : List Question)
    (events : List Event) (hids : (questions.map Question.id).Nodup) :
    (step mode questions (runQuiz mode questions events) .finishClick).stored
      = (runQuiz mode questions events).answers ∧
    (step mode questions (runQuiz mode questions events)
      .finishClick).activeTimers = [] ∧
    ((∃ q ∈ questions,
        lookupAnswer (runQuiz mode questions events).answers q.id = none) →
      (step mode questions (runQuiz mode questions events) .finishClick).finished
          = (runQuiz mode questions events).finished ∧
      (step mode questions (runQuiz mode questions events)
        .finishClick).showConfirmDialog = true ∧
      (step mode questions
        (step mode questions (runQuiz mode questions events) .finishClick)
        .confirmFinish).finished = true) ∧
    ((∀ q ∈ questions,
        (lookupAnswer (runQuiz mode questions events).answers q.id).isSome
          = true) →
      (step mode questions (runQuiz mode questions events)
        .finishClick).finished = true) := by
  obtain ⟨hidx, htim, hnod, hsub⟩ := inv_run mode questions events
  have hclear : clearHeld (runQuiz mode questions events).autoAdvanceTimer
      (runQuiz mode questions events).activeTimers = [] :=
    clearHeld_of_held _ _ (fun t ht => (htim t ht).1)
  have hcomp := answers_complete_iff questions
    (runQuiz mode questions events).answers hids hnod hsub
  by_cases hg : (runQuiz mode questions events).answers.length
      = questions.length
  · have hstep : step mode questions (runQuiz mode questions events)
        .finishClick
        = { runQuiz mode questions events with
            activeTimers := []
            stored := (runQuiz mode questions events).answers
            finished := true } := by
      simp [step, hg, hclear]
    refine ⟨by rw [hstep], by rw [hstep], ?_, ?_⟩
    · intro hex
      obtain ⟨q, hq, hnone⟩ := hex
      have := hcomp.mp hg q hq
      rw [hnone] at this
      simp at this
    · intro
      rw [hstep]
  · have hstep : step mode questions (runQuiz mode questions events)
        .finishClick
        = { runQuiz mode questions events with
            activeTimers := []
            stored := (runQuiz mode questions events).answers
            showConfirmDialog := true } := by
      simp [step, hg, hclear]
    refine ⟨by rw [hstep], by rw [hstep], ?_, ?_⟩
    · intro
      refine ⟨by rw [hstep], by rw [hstep], ?_⟩
      rw [hstep]
      simp [step]
    · intro hall
      exact absurd (hcomp.mpr hall) hg

/-- Witness for C6: after answering only question 1 of the five, finish
opens the dialog and only the explicit confirm finishes. -/
theorem finish_spec_witness :
    (exampleQuestions.map Question.id).Nodup ∧
    (∃ q ∈ exampleQuestions,
      lookupAnswer (runQuiz .practice exampleQuestions
        [.answer .A]).answers q.id = none) ∧
    (step .practice exampleQuestions
      (runQuiz .practice exampleQuestions [.answer .A])
      .finishClick).showConfirmDialog = true ∧
    (step .practice exampleQuestions
      (step .practice exampleQuestions
        (runQuiz .practice exampleQuestions [.answer .A]) .finishClick)
      .confirmFinish).finished = true := by
  have hids : (exampleQuestions.map Question.id).Nodup := by decide
  have hex : ∃ q ∈ exampleQuestions,
      lookupAnswer (runQuiz .practice exampleQuestions
        [.answer .A]).answers q.id = none := by decide
  obtain ⟨hfin, hdlg, hconf⟩ :=
    (finish_spec .practice exampleQuestions [.answer .A] hids).2.2.1 hex
  exact ⟨hids, hex, hdlg, hconf⟩

/-- Firing any timer in a state with no scheduled timeouts is a no-op. -/
theorem timerFire_of_no_active (mode : QuizMode) (questions : List Question)
    (s : QuizScreenState) (h : s.activeTimers = []) (t : Timer) :
    step mode questions s (.timerFire t) = s := by
  apply step_timerFire_of_not_mem
  rw [h]
  exact List.not_mem_nil t

/-- C7: whenever the position changes through `previous`, `skip` or a
navigator `jump` (rather than through a timer's own callback), and whenever
the session ends (`unmount`, which is how restart tears the screen down),
any pending auto-advance is invalidated: firing any timer afterwards is a
complete no-op, so a stale timer never causes an additional advance. -/
theorem stale_timer_no_advance (mode : QuizMode) (questions : List Question)
    (events : List Event) :
    ((step mode questions (runQuiz mode questions events) .previous).currentIndex
        ≠ (runQuiz mode questions events).currentIndex →
      ∀ t, step mode questions
          (step mode questions (runQuiz mode questions events) .previous)
          (.timerFire t)
        = step mode questions (runQuiz mode questions events) .previous) ∧
    ((step mode questions (runQuiz mode questions events) .skip).currentIndex
        ≠ (runQuiz mode questions events).currentIndex →
      ∀ t, step mode questions
          (step mode questions (runQuiz mode questions events) .skip)
          (.timerFire t)
        = step mode questions (runQuiz mode questions events) .skip) ∧
    (∀ idx,
      (step mode questions (runQuiz mode questions events)
          (.jump idx)).currentIndex
        ≠ (runQuiz mode questions events).currentIndex →
      ∀ t, step mode questions
          (step mode questions (runQuiz mode questions events) (.jump idx))
          (.timerFire t)
        = step mode questions (runQuiz mode questions events) (.jump idx)) ∧
    (∀ t, step mode questions
        (step mode questions (runQuiz mode questions events) .unmount)
        (.timerFire t)
      = step mode questions (runQuiz mode questions events) .unmount) := by
  obtain ⟨hidx, htim, hnod, hsub⟩ := inv_run mode questions events
  have hclear : clearHeld (runQuiz mode questions events).autoAdvanceTimer
      (runQuiz mode questions events).activeTimers = [] :=
    clearHeld_of_held _ _ (fun t ht => (htim t ht).1)
  refine ⟨?_, ?_, ?_, ?_⟩
  · intro hch t
    by_cases hg : 0 < (runQuiz mode questions events).currentIndex
    · exact timerFire_of_no_active mode questions _ (by simp [step, hg, hclear]) t
    · exact absurd (by simp [step, hg]) hch
  · intro hch t
    by_cases hg : (runQuiz mode questions events).currentIndex
        < questions.length - 1
    · exact timerFire_of_no_active mode questions _ (by simp [step, hg, hclear]) t
    · exact absurd (by simp [step, hg]) hch
  · intro idx hch t
    by_cases hg : idx < questions.length
    · exact timerFire_of_no_active mode questions _ (by simp [step, hg, hclear]) t
    · exact absurd (by simp [step, hg]) hch
  · intro t
    exact timerFire_of_no_active mode questions _ (by simp [step, hclear]) t

/-- Witness for C7: answer question 1 (a timer is now pending), skip — the
position changed away from the answer's position — and then let the stale
timer fire: nothing happens. -/
theorem stale_timer_no_advance_witness :
    ((step .exam exampleQuestions
        (runQuiz .exam exampleQuestions [.answer .A]) .skip).currentIndex
      ≠ (runQuiz .exam exampleQuestions [.answer .A]).currentIndex) ∧
    step .exam exampleQuestions
        (step .exam exampleQuestions
          (runQuiz .exam exampleQuestions [.answer .A]) .skip)
        (.timerFire ⟨0, 0⟩)
      = step .exam exampleQuestions
          (runQuiz .exam exampleQuestions [.answer .A]) .skip := by
  have hch : (step .exam exampleQuestions
      (runQuiz .exam exampleQuestions [.answer .A]) .skip).currentIndex
      ≠ (runQuiz .exam exampleQuestions [.answer .A]).currentIndex := by decide
  exact ⟨hch,
    (stale_timer_no_advance .exam exampleQuestions [.answer .A]).2.1 hch ⟨0, 0⟩⟩

/-- C8: with a non-empty selection the position stays in `[0, n-1]` along
every event sequence; `skip` is a complete no-op at the last question,
`previous` a complete no-op at position 0, and a timer fired after answering
at the last question does not move the position (the auto-advance becomes a
no-op rather than running past the end). -/
theorem position_safety (mode : QuizMode) (questions : List Question)
    (hne : questions ≠ []) (events : List Event) :
    (runQuiz mode questions events).currentIndex < questions.length ∧
    ((runQuiz mode questions events).currentIndex = questions.length - 1 →
      step mode questions (runQuiz mode questions events) .skip
        = runQuiz mode questions events) ∧
    ((runQuiz mode questions events).currentIndex = 0 →
      step mode questions (runQuiz mode questions events) .previous
        = runQuiz mode questions events) ∧
    ((runQuiz mode questions events).currentIndex = questions.length - 1 →
      ∀ (o : Opt) (t : Timer),
        (step mode questions
          (step mode questions (runQuiz mode questions events) (.answer o))
          (.timerFire t)).currentIndex
        = (step mode questions (runQuiz mode questions events)
            (.answer o)).currentIndex) := by
  obtain ⟨hidx, -, -, -⟩ := inv_run mode questions events
  have hbound : (runQuiz mode questions events).currentIndex
      < questions.length := by
    rcases hidx with h | ⟨h1, -⟩
    · exact h
    · exact absurd h1 hne
  refine ⟨hbound, ?_, ?_, ?_⟩
  · intro hlast
    have hg : ¬((runQuiz mode questions events).currentIndex
        < questions.length - 1) := by omega
    simp [step, hg]
  · intro h0
    have hg : ¬(0 < (runQuiz mode questions events).currentIndex) := by omega
    simp [step, hg]
  · intro hlast o t
    set s1 := step mode questions (runQuiz mode questions events) (.answer o)
      with hs1
    obtain ⟨-, htim', -, -⟩ :=
      inv_step mode questions (runQuiz mode questions events) (.answer o)
        (inv_run mode questions events)
    by_cases ht : t ∈ s1.activeTimers
    · have hcap := (htim' t ht).2
      have hidx' := step_answer_currentIndex mode questions
        (runQuiz mode questions events) o
      rw [← hs1] at hcap hidx'
      have hadv : ¬(t.capturedIndex < questions.length - 1) := by omega
      simp [step, ht, hadv]
    · rw [step_timerFire_of_not_mem mode questions s1 t ht]

/-- Witness for C8: jump to the last of the five questions; skip there is a
no-op, and the timer scheduled by answering there fires without moving. -/
theorem position_safety_witness :
    exampleQuestions ≠ [] ∧
    (runQuiz .practice exampleQuestions [.jump 4]).currentIndex
      = exampleQuestions.length - 1 ∧
    step .practice exampleQuestions
        (runQuiz .practice exampleQuestions [.jump 4]) .skip
      = runQuiz .practice exampleQuestions [.jump 4] ∧
    (step .practice exampleQuestions
        (step .practice exampleQuestions
          (runQuiz .practice exampleQuestions [.jump 4]) (.answer .A))
        (.timerFire ⟨0, 4⟩)).currentIndex
      = (step .practice exampleQuestions
          (runQuiz .practice exampleQuestions [.jump 4])
          (.answer .A)).currentIndex := by
  have hne : exampleQuestions ≠ [] := by decide
  have hlast : (runQuiz .practice exampleQuestions [.jump 4]).currentIndex
      = exampleQuestions.length - 1 := by decide
  refine ⟨hne, hlast, ?_, ?_⟩
  · exact (position_safety .practice exampleQuestions hne [.jump 4]).2.1 hlast
  · exact (position_safety .practice exampleQuestions hne
      [.jump 4]).2.2.2 hlast .A ⟨0, 4⟩

end Quiz
